import Mathlib

set_option maxRecDepth 8000

/-!
# Verification of the UroSmart aggregation and detection core

Shallow embedding, over exact rationals, of:

* `backend/tflite_detector.py` — IoU, per-class greedy NMS and the
  YOLO postprocessing summary (`TFLiteYOLODetector._iou`, `_nms`,
  `postprocess_yolo`);
* `backend/federated_learning.py` — the connectivity-gated FedAvg
  manager (`FederatedLearningManager.add_update`, `_aggregate_updates`,
  `save_global_model`, `load_global_model`) together with a small
  operation language covering the background triggers;
* `backend/federated_server.py` — the required-field validation of
  `upload_update`, and the `FederatedAggregator` (its `add_update`, the
  YOLO/traditional dispatch and clearing tail of `_aggregate_updates`,
  the in-memory effects of `_aggregate_yolo_models`, and
  `save_global_model`).

Python floats are modelled as exact rationals; numpy elementwise
operations on 1-d arrays are modelled on `List ℚ`, with `Option` marking
the paths on which numpy raises (shape mismatch that cannot broadcast,
missing dictionary key).  Filesystem persistence is modelled as an
explicit store inside the manager state.
-/

namespace UroSmart

/-! ## Detector data model (`tflite_detector.py`) -/

/-- A bounding box `[x1, y1, x2, y2]` as passed around by the detector. -/
abbrev Box := ℚ × ℚ × ℚ × ℚ

/-- One detection dictionary `{'confidence': …, 'bbox': …}`. -/
structure Detection where
  confidence : ℚ
  bbox : Box
deriving DecidableEq, Repr

/-- One per-class summary produced by `postprocess_yolo`. -/
structure ClassResult where
  present : Bool
  count : ℕ
  confidence : ℚ
  detections : List Detection
deriving DecidableEq, Repr

/-- Mapping `TFLiteYOLODetector.CLASS_NAMES` (training order). -/
def CLASS_NAMES : ℕ → String
  | 0 => "calcium_oxalate"
  | 1 => "squamous_cells"
  | 2 => "triple_phosphate"
  | 3 => "uric_acid"
  | 4 => "yeast"
  | _ => ""

/-- Intersection area computed by `_iou` (the `inter_area` local). -/
def interArea (box1 box2 : Box) : ℚ :=
  let (x1_min, y1_min, x1_max, y1_max) := box1
  let (x2_min, y2_min, x2_max, y2_max) := box2
  let inter_xmin := max x1_min x2_min
  let inter_ymin := max y1_min y2_min
  let inter_xmax := min x1_max x2_max
  let inter_ymax := min y1_max y2_max
  let inter_width := max 0 (inter_xmax - inter_xmin)
  let inter_height := max 0 (inter_ymax - inter_ymin)
  inter_width * inter_height

/-- Union area computed by `_iou` (the `union_area` local). -/
def unionArea (box1 box2 : Box) : ℚ :=
  let (x1_min, y1_min, x1_max, y1_max) := box1
  let (x2_min, y2_min, x2_max, y2_max) := box2
  let box1_area := (x1_max - x1_min) * (y1_max - y1_min)
  let box2_area := (x2_max - x2_min) * (y2_max - y2_min)
  box1_area + box2_area - interArea box1 box2

/-- Method `TFLiteYOLODetector._iou`: intersection over union, `0` when the
union area is `0`. -/
def iou (box1 box2 : Box) : ℚ :=
  if unionArea box1 box2 = 0 then 0
  else interArea box1 box2 / unionArea box1 box2

/-- One step of Python's stable sort, descending by confidence: the new
element moves left past every strictly smaller confidence and lands
after any element of greater-or-equal confidence (stability). -/
def insertByConf (d : Detection) : List Detection → List Detection
  | [] => [d]
  | x :: xs =>
    if x.confidence < d.confidence then d :: x :: xs
    else x :: insertByConf d xs

/-- Python `sorted(dets, key=lambda x: x[..])` with `reverse=True` — the
stable descending sort by confidence used by `_nms` and
`postprocess_yolo`. -/
def sortDescConf (l : List Detection) : List Detection :=
  l.foldl (fun acc d => insertByConf d acc) []

/-- The `while` loop of `_nms`: keep the head (highest remaining
confidence), drop every remaining detection whose IoU with it is not
strictly below the threshold, repeat. -/
def nmsLoop (iou_threshold : ℚ) : List Detection → List Detection
  | [] => []
  | best :: rest =>
    best :: nmsLoop iou_threshold
      (rest.filter fun d => iou best.bbox d.bbox < iou_threshold)
termination_by l => l.length
decreasing_by
  simp only [List.length_cons, Nat.lt_succ_iff]
  exact List.length_filter_le _ _

/-- Method `TFLiteYOLODetector._nms`. -/
def nms (detections : List Detection) (iou_threshold : ℚ) : List Detection :=
  nmsLoop iou_threshold (sortDescConf detections)

/-- Python `round(q, 3)` idealised over ℚ: round `q * 1000` to the
nearest integer, ties to even. -/
def pyRound3 (q : ℚ) : ℚ :=
  let scaled := q * 1000
  let f : ℤ := Rat.floor scaled
  let frac := scaled - (f : ℚ)
  let r : ℤ :=
    if (1 : ℚ) / 2 < frac then f + 1
    else if frac < (1 : ℚ) / 2 then f
    else if f % 2 = 0 then f else f + 1
  (r : ℚ) / 1000

/-- Constant `num_classes` in `postprocess_yolo`. -/
def num_classes : ℕ := 5

/-- Constant `num_predictions` in `postprocess_yolo` (anchor count of the
`[1, 9, 8400]` output tensor). -/
def num_predictions : ℕ := 8400

/-- The body of the per-anchor loop of `postprocess_yolo`: argmax over
the five class scores (rows 4–8) at column `i`; if the winning score
exceeds the confidence threshold, emit `(best_class, detection)` with
the center/size box of rows 0–3 converted to corner form.  `np.argmax`
returns the first index attaining the maximum. -/
def candidateAt (preds : ℕ → ℕ → ℚ) (conf_threshold : ℚ) (i : ℕ) :
    Option (ℕ × Detection) :=
  let s0 := preds 4 i
  let s1 := preds 5 i
  let s2 := preds 6 i
  let s3 := preds 7 i
  let s4 := preds 8 i
  let max_conf := max s0 (max s1 (max s2 (max s3 s4)))
  let best_class : ℕ :=
    if max_conf = s0 then 0
    else if max_conf = s1 then 1
    else if max_conf = s2 then 2
    else if max_conf = s3 then 3
    else 4
  if conf_threshold < max_conf then
    let cx := preds 0 i
    let cy := preds 1 i
    let w := preds 2 i
    let h := preds 3 i
    some (best_class, ⟨max_conf, (cx - w/2, cy - h/2, cx + w/2, cy + h/2)⟩)
  else none

/-- List `detections_by_class[class_id]` after the anchor loop of
`postprocess_yolo`: candidates of that class in anchor order. -/
def detectionsByClass (preds : ℕ → ℕ → ℚ) (conf_threshold : ℚ)
    (class_id : ℕ) : List Detection :=
  (List.range num_predictions).filterMap fun i =>
    match candidateAt preds conf_threshold i with
    | some (c, d) => if c = class_id then some d else none
    | none => none

/-- The per-class summary branch of `postprocess_yolo`: sort, NMS at
IoU 0.45, average-and-round the kept confidences, truncate to 10. -/
def summarizeClass (class_dets : List Detection) : ClassResult :=
  if 0 < class_dets.length then
    let sorted := sortDescConf class_dets
    let nms_dets := nms sorted (45/100)
    let avg_conf := (nms_dets.map (·.confidence)).sum / (nms_dets.length : ℚ)
    { present := true
      count := nms_dets.length
      confidence := pyRound3 avg_conf
      detections := nms_dets.take 10 }
  else
    { present := false, count := 0, confidence := 0, detections := [] }

/-- Method `TFLiteYOLODetector.postprocess_yolo` on the batch-stripped
`[9, 8400]` tensor `preds` (row, anchor) — the final per-class
dictionary in class-id order. -/
def postprocess_yolo (preds : ℕ → ℕ → ℚ) (conf_threshold : ℚ) :
    List (String × ClassResult) :=
  (List.range num_classes).map fun class_id =>
    (CLASS_NAMES class_id,
      summarizeClass (detectionsByClass preds conf_threshold class_id))

/-! ## Federated learning manager (`federated_learning.py`) -/

/-- Constant `AGGREGATION_THRESHOLD` — minimum updates before aggregation. -/
def AGGREGATION_THRESHOLD : ℕ := 3

/-- Dataclass `ModelUpdate`.  Its `weight_updates` is a JSON object mapping
layer names to numeric vectors; modelled as an association list. -/
structure ModelUpdate where
  device_id : String
  version : ℤ
  weight_updates : List (String × List ℚ)
  num_samples : ℕ
  training_loss : ℚ
  validation_accuracy : ℚ
  timestamp : String
deriving DecidableEq, Repr

/-- Dataclass `GlobalModel`. -/
structure GlobalModel where
  version : ℕ
  weights : List (String × List ℚ)
  participating_devices : ℕ
  aggregation_timestamp : String
  average_loss : ℚ
  average_accuracy : ℚ
deriving DecidableEq, Repr

/-- In-memory state of a `FederatedLearningManager`, together with the
files it owns under `federated_models/`: `store` holds the immutable
`global_model_v{n}.json` artifacts and `latest` the overwritten
`global_model_latest.json`.  `is_online` is the cached connectivity
boolean; the network probe itself is an environment effect, so an
operation that refreshes the cache carries the probe's outcome.  `now`
is the value `datetime.utcnow().isoformat()` would return. -/
structure ManagerState where
  pending_updates : List ModelUpdate
  current_version : ℕ
  global_model : Option GlobalModel
  is_online : Bool
  store : List (ℕ × GlobalModel)
  latest : Option GlobalModel
  now : String
deriving DecidableEq, Repr

/-- State at construction time with an empty `federated_models/`
directory (`__init__` then finds no `global_model_latest.json`). -/
def initState : ManagerState :=
  { pending_updates := []
    current_version := 0
    global_model := none
    is_online := false
    store := []
    latest := none
    now := "" }

/-- Method `is_connected` — reads the cached connectivity boolean (the lazy
re-probe is an environment effect folded into the operations that set
`is_online`). -/
def is_connected (s : ManagerState) : Bool := s.is_online

/-- Lookup `update.weight_updates[key]`, `None` when the key is absent
(a `KeyError` in Python). -/
def lookupW (u : ModelUpdate) (key : String) : Option (List ℚ) :=
  u.weight_updates.lookup key

/-- Array `np.zeros_like(first_weights)`. -/
def zerosLike (v : List ℚ) : List ℚ := v.map fun _ => 0

/-- Statement `weighted_sum += arr` on 1-d float arrays: elementwise when the
shapes agree, numpy broadcasting when `arr` has length 1, and `none`
(a raised `ValueError`) otherwise. -/
def npAddInPlace (acc v : List ℚ) : Option (List ℚ) :=
  if v.length = acc.length then some (List.zipWith (· + ·) acc v)
  else if v.length = 1 then some (acc.map (· + v.headI))
  else none

/-- The inner loop of `_aggregate_updates` for one weight key:
`weighted_sum += np.array(update.weight_updates[key]) * (num_samples / total)`
over all pending updates, starting from `acc = np.zeros_like(...)`.
`none` when an update lacks the key or the shapes cannot broadcast. -/
def accumulateKey (key : String) (total : ℚ) :
    List ModelUpdate → List ℚ → Option (List ℚ)
  | [], acc => some acc
  | u :: rest, acc => do
    let v ← lookupW u key
    let acc' ← npAddInPlace acc (v.map (· * ((u.num_samples : ℚ) / total)))
    accumulateKey key total rest acc'

/-- The `for key in weight_keys` loop of `_aggregate_updates`: the keys
are those of the first pending update; for each, the sample-weighted
sum starts from zeros shaped like the first update's vector.  `none`
reproduces the exception paths of the Python loop. -/
def computeAggregatedWeights (updates : List ModelUpdate) (total : ℚ) :
    Option (List (String × List ℚ)) :=
  match updates with
  | [] => none
  | first :: _ =>
    (first.weight_updates.map Prod.fst).mapM fun key => do
      let firstVec ← lookupW first key
      let agg ← accumulateKey key total updates (zerosLike firstVec)
      pure (key, agg)

/-- Total `sum(update.num_samples for update in pending_updates)`. -/
def totalSamples (updates : List ModelUpdate) : ℕ :=
  (updates.map (·.num_samples)).sum

/-- Method `save_global_model` — writes the versioned artifact file
(overwriting any file of that name) and overwrites
`global_model_latest.json`; a no-op when there is no global model. -/
def save_global_model (s : ManagerState) : ManagerState :=
  match s.global_model with
  | none => s
  | some gm =>
    { s with
      store :=
        if s.store.any (·.1 = s.current_version) then
          s.store.map fun p =>
            if p.1 = s.current_version then (s.current_version, gm) else p
        else s.store ++ [(s.current_version, gm)]
      latest := some gm }

/-- Method `load_global_model` — reads `global_model_latest.json` if present
and restores both the in-memory model and `current_version` from it. -/
def load_global_model (s : ManagerState) : ManagerState :=
  match s.latest with
  | none => s
  | some gm => { s with global_model := some gm, current_version := gm.version }

/-- Method `FederatedLearningManager._aggregate_updates`.  Returns the `bool`
result of the Python method paired with the state after the call.  The
failure paths — empty queue, offline, zero total samples, and any
exception raised inside the `try` (missing key or shape mismatch,
caught by the `except`) — return `False` having mutated nothing. -/
def aggregate_updates (s : ManagerState) : Bool × ManagerState :=
  if s.pending_updates.length = 0 then (false, s)
  else if !is_connected s then (false, s)
  else
    let total : ℚ := (totalSamples s.pending_updates : ℚ)
    if total = 0 then (false, s)
    else
      match computeAggregatedWeights s.pending_updates total with
      | none => (false, s)
      | some aggregated_weights =>
        let n := s.pending_updates.length
        let avg_loss := (s.pending_updates.map (·.training_loss)).sum / (n : ℚ)
        let avg_accuracy :=
          (s.pending_updates.map (·.validation_accuracy)).sum / (n : ℚ)
        let v := s.current_version + 1
        let gm : GlobalModel :=
          { version := v
            weights := aggregated_weights
            participating_devices := n
            aggregation_timestamp := s.now
            average_loss := avg_loss
            average_accuracy := avg_accuracy }
        let s1 := { s with current_version := v, global_model := some gm }
        let s2 := save_global_model s1
        (true, { s2 with pending_updates := [] })

/-- Return value of `add_update` (the keys of the returned dict; absent
keys are `none`). -/
structure AddResult where
  status : String
  message : String
  queued : Option Bool := none
  new_version : Option ℕ := none
  pending_count : Option ℕ := none
  threshold : Option ℕ := none
deriving DecidableEq, Repr

/-- Method `FederatedLearningManager.add_update`.  The middle component is the
`result` local that `add_update` binds (and then ignores) from
`_aggregate_updates`; it is `false` when no aggregation was attempted. -/
def add_update (s : ManagerState) (u : ModelUpdate) :
    AddResult × Bool × ManagerState :=
  if !is_connected s then
    ({ status := "offline"
       message := "Update queued for when connection is available"
       queued := some true }, false, s)
  else
    let s1 := { s with pending_updates := s.pending_updates ++ [u] }
    if AGGREGATION_THRESHOLD ≤ s1.pending_updates.length then
      let r := aggregate_updates s1
      ({ status := "aggregated"
         message := "Update received and aggregated"
         new_version := some r.2.current_version
         pending_count := some 0 }, r.1, r.2)
    else
      ({ status := "pending"
         message := "Update received (" ++ toString s1.pending_updates.length
           ++ "/" ++ toString AGGREGATION_THRESHOLD ++ " pending)"
         pending_count := some s1.pending_updates.length
         threshold := some AGGREGATION_THRESHOLD }, false, s1)

/-! ### Operation language over the manager

The manager is driven by client submissions, the connectivity monitor
thread, the periodic-aggregation thread, and reloads from disk.  Each
operation is one lock-protected body from `federated_learning.py`. -/

/-- Operations on a `FederatedLearningManager`. -/
inductive Op where
  /-- A client calls `add_update u`. -/
  | submit (u : ModelUpdate)
  /-- One wake-up of `_monitor_connectivity`: the probe returned
  `online`; if online with a full window, aggregate. -/
  | monitorTick (online : Bool)
  /-- One wake-up of `_periodic_aggregation`. -/
  | timerTick
  /-- `load_global_model` (re-reading persisted state). -/
  | reload
deriving DecidableEq, Repr

/-- Apply one operation; the boolean records whether an aggregation
succeeded during the operation. -/
def stepR : Op → ManagerState → Bool × ManagerState
  | .submit u, s =>
    let r := add_update s u
    (r.2.1, r.2.2)
  | .monitorTick b, s =>
    let s1 := { s with is_online := b }
    if b ∧ AGGREGATION_THRESHOLD ≤ s1.pending_updates.length then
      aggregate_updates s1
    else (false, s1)
  | .timerTick, s =>
    if is_connected s ∧ AGGREGATION_THRESHOLD ≤ s.pending_updates.length then
      aggregate_updates s
    else if 0 < s.pending_updates.length ∧ is_connected s then
      aggregate_updates s
    else (false, s)
  | .reload, s => (false, load_global_model s)

/-- The state after one operation. -/
def stepState (op : Op) (s : ManagerState) : ManagerState := (stepR op s).2

/-- Whether an aggregation succeeded during the operation. -/
def stepOk (op : Op) (s : ManagerState) : Bool := (stepR op s).1

/-- Run a sequence of operations from the initial state. -/
def run (ops : List Op) : ManagerState :=
  ops.foldl (fun s op => stepState op s) initState

/-- The versioning/persistence invariant of claim C2: when a `latest`
artifact exists it carries the in-memory current version, it is one of
the persisted version-keyed artifacts, and no persisted artifact has a
higher version; before the first save nothing is persisted. -/
def StateInv (s : ManagerState) : Prop :=
  match s.latest with
  | none => s.store = []
  | some gm =>
    gm.version = s.current_version ∧
    (gm.version, gm) ∈ s.store ∧
    ∀ p ∈ s.store, p.1 ≤ gm.version

instance (s : ManagerState) : Decidable (StateInv s) := by
  unfold StateInv
  cases s.latest <;> infer_instance

/-! ## Required-field validation of `upload_update`
(`federated_server.py`) -/

/-- The JSON payload of `POST /api/federated/upload_update`; each
required field may be absent. -/
structure UploadPayload where
  device_id : Option String
  version : Option ℤ
  weight_updates : Option (List (String × List ℚ))
  num_samples : Option ℕ
  training_loss : Option ℚ
  validation_accuracy : Option ℚ
  timestamp : Option String
deriving DecidableEq, Repr

/-- Check `all(field in data for field in required_fields)` over the seven
required fields of `upload_update`. -/
def requiredFieldsPresent (d : UploadPayload) : Bool :=
  d.device_id.isSome && d.version.isSome && d.weight_updates.isSome &&
    d.num_samples.isSome && d.training_loss.isSome &&
    d.validation_accuracy.isSome && d.timestamp.isSome

/-- The validation-and-construction prefix of `upload_update`: `none`
is the early `400 "Missing required fields"` response, returned before
`aggregator.add_update` is ever reached (hence with no state
mutation); `some u` is the `ModelUpdate` handed to the aggregator. -/
def uploadUpdateValidate (d : UploadPayload) : Option ModelUpdate :=
  if requiredFieldsPresent d then
    some
      { device_id := d.device_id.getD ""
        version := d.version.getD 0
        weight_updates := d.weight_updates.getD []
        num_samples := d.num_samples.getD 0
        training_loss := d.training_loss.getD 0
        validation_accuracy := d.validation_accuracy.getD 0
        timestamp := d.timestamp.getD "" }
  else none


/-! ## Server-side aggregator (`federated_server.py`) -/

/-- In-memory state of a `FederatedAggregator` (federated_server.py),
with its persisted artifacts modelled as in `ManagerState` (`store` for
the versioned JSON files, `latest` for the overwritten latest record).
`yolo_available` is the outcome of the `ultralytics` import
(`YOLO_AVAILABLE`); `yolo_model_ready` is the environment's verdict on
the filesystem/torch steps of `_aggregate_yolo_models` (a base `.pt`
model is found and every YOLO/torch/file operation succeeds). -/
structure ServerState where
  pending_updates : List ModelUpdate
  current_version : ℕ
  global_model : Option GlobalModel
  store : List (ℕ × GlobalModel)
  latest : Option GlobalModel
  yolo_available : Bool
  yolo_model_ready : Bool
  now : String
deriving DecidableEq, Repr

/-- The `has_yolo_updates` local of the server's `_aggregate_updates`:
Python `any('model_path' in u.weight_updates for u in pending)`. -/
def server_has_yolo_updates (t : ServerState) : Bool :=
  t.pending_updates.any fun u => (u.weight_updates.lookup "model_path").isSome

/-- Method `FederatedAggregator.save_global_model` — identical file
writes to the manager's save (versioned artifact, overwriting any file
of that name, plus the latest record), a no-op without a model; unlike
the manager's it has no `try/except`, but the only failure source is
the filesystem (an environment effect, as in the manager model). -/
def server_save_global_model (t : ServerState) : ServerState :=
  match t.global_model with
  | none => t
  | some gm =>
    { t with
      store :=
        if t.store.any (·.1 = t.current_version) then
          t.store.map fun p =>
            if p.1 = t.current_version then (t.current_version, gm) else p
        else t.store ++ [(t.current_version, gm)]
      latest := some gm }

/-- Method `FederatedAggregator._aggregate_yolo_models`.  Its whole
body runs inside `try/except Exception: pass`, so it never raises and
its only in-memory effects are the version bump and the installation of
the path-referencing global model on the success path.  Before anything
else it computes the sample total and returns, changing nothing, when
that total is 0.  Every later step — resolving the base model path,
loading the `.pt` models, averaging torch state dicts, writing the
aggregated model — acts on the filesystem and the YOLO runtime;
`yolo_model_ready` carries the environment's verdict on that whole
block, so `false` covers both the missing-base-model early return and
the caught exception (state unchanged either way).  The value of the
`"model_path"` weights entry is a filesystem path string in the source,
read only by filesystem code; the payload is not modelled (empty
vector), only the key's presence is. -/
def server_aggregate_yolo_models (t : ServerState) : ServerState :=
  if totalSamples t.pending_updates = 0 then t
  else if t.yolo_model_ready then
    let n := t.pending_updates.length
    let avg_loss := (t.pending_updates.map (·.training_loss)).sum / (n : ℚ)
    let avg_accuracy := (t.pending_updates.map (·.validation_accuracy)).sum / (n : ℚ)
    { t with
      current_version := t.current_version + 1
      global_model := some
        { version := t.current_version + 1
          weights := [("model_path", [])]
          participating_devices := n
          aggregation_timestamp := t.now
          average_loss := avg_loss
          average_accuracy := avg_accuracy } }
  else t

/-- Common tail of the server's `_aggregate_updates` (lines 140–154),
reached from the YOLO branch unconditionally and from the traditional
branch on success: `save_global_model()`, `_update_backend_model()`
(which only copies model files on disk), `pending_updates.clear()`, and
the completion prints.  The print at line 151 dereferences
`self.global_model.participating_devices`, raising an uncaught
`AttributeError` when no global model exists — after the queue has
already been cleared; the boolean records completion without that
exception. -/
def server_aggregate_tail (t : ServerState) : Bool × ServerState :=
  let t1 := server_save_global_model t
  let t2 := { t1 with pending_updates := [] }
  (t2.global_model.isSome, t2)

/-- Method `FederatedAggregator._aggregate_updates`.  The boolean is
`true` when the method returns normally and `false` when an uncaught
exception escapes it (there is no `try/except` here, unlike the
manager): the traditional path's key loop re-raises on a missing key or
a non-broadcastable shape (before any state mutation, so the state is
unchanged and in particular `pending_updates.clear()` is never
reached), and the tail's completion print raises when no global model
exists.  The traditional path's zero-total check returns early,
skipping the tail; the YOLO branch always falls through to the tail. -/
def server_aggregate_updates (t : ServerState) : Bool × ServerState :=
  if t.pending_updates.length = 0 then (true, t)
  else if server_has_yolo_updates t && t.yolo_available then
    server_aggregate_tail (server_aggregate_yolo_models t)
  else if totalSamples t.pending_updates = 0 then (true, t)
  else
    match computeAggregatedWeights t.pending_updates
        ((totalSamples t.pending_updates : ℕ) : ℚ) with
    | none => (false, t)
    | some aggregated_weights =>
      let n := t.pending_updates.length
      let avg_loss := (t.pending_updates.map (·.training_loss)).sum / (n : ℚ)
      let avg_accuracy := (t.pending_updates.map (·.validation_accuracy)).sum / (n : ℚ)
      let v := t.current_version + 1
      let gm : GlobalModel :=
        { version := v
          weights := aggregated_weights
          participating_devices := n
          aggregation_timestamp := t.now
          average_loss := avg_loss
          average_accuracy := avg_accuracy }
      server_aggregate_tail { t with current_version := v, global_model := some gm }

/-- Method `FederatedAggregator.add_update`: append under the lock,
then aggregate synchronously when the threshold is reached; the boolean
propagates the uncaught-exception outcome of `_aggregate_updates`. -/
def server_add_update (t : ServerState) (u : ModelUpdate) : Bool × ServerState :=
  let t1 := { t with pending_updates := t.pending_updates ++ [u] }
  if AGGREGATION_THRESHOLD ≤ t1.pending_updates.length then
    server_aggregate_updates t1
  else (true, t1)

/-- Descending order by confidence (the order produced by
`sorted(..., reverse=True)`). -/
def SortedDesc (l : List Detection) : Prop :=
  l.Pairwise fun a b => b.confidence ≤ a.confidence

/-- The spec's FedAvg formula, written from the spec's words (for
comparison with the code's computation):
`aggregated[key] = Σ_i (num_samples_i / total) * update_i.weight_updates[key]`,
read elementwise at each coordinate `j` (coordinates beyond an update's
vector read as `0`). -/
def specFedAvg (updates : List ModelUpdate) (key : String) (len : ℕ) : List ℚ :=
  let total : ℚ := (totalSamples updates : ℚ)
  (List.range len).map fun j =>
    (updates.map fun u =>
      ((u.num_samples : ℚ) / total) * (((lookupW u key).getD []).getD j 0)).sum

/-! ## Concrete inputs used by witnesses and counterexamples -/

/-- Higher-confidence detection on the unit box. -/
def dHi : Detection := ⟨9/10, (0, 0, 1, 1)⟩

/-- Lower-confidence detection whose IoU with `dHi` is `3/5 = 0.6`. -/
def dLo : Detection := ⟨8/10, (0, 0, 1, 3/5)⟩

/-- Lower-confidence detection whose IoU with `dHi` is exactly the
default NMS threshold `9/20 = 0.45`. -/
def dLo45 : Detection := ⟨8/10, (0, 0, 1, 9/20)⟩

/-- The degenerate zero-area box. -/
def zeroBox : Box := (0, 0, 0, 0)

/-- Update A of the spec's FedAvg example: 10 samples, weights `[1, 2]`. -/
def updA : ModelUpdate :=
  { device_id := "A", version := 1, weight_updates := [("layer", [1, 2])],
    num_samples := 10, training_loss := 1/10, validation_accuracy := 8/10,
    timestamp := "t" }

/-- Update B of the spec's FedAvg example: 30 samples, weights `[3, 4]`. -/
def updB : ModelUpdate :=
  { device_id := "B", version := 1, weight_updates := [("layer", [3, 4])],
    num_samples := 30, training_loss := 2/10, validation_accuracy := 9/10,
    timestamp := "t" }

/-- A third compatible update, used to reach the aggregation threshold. -/
def updC : ModelUpdate :=
  { device_id := "C", version := 1, weight_updates := [("layer", [5, 6])],
    num_samples := 20, training_loss := 3/10, validation_accuracy := 7/10,
    timestamp := "t" }

/-- An update reporting `num_samples = 0` (admissible but making the
batch total zero). -/
def zUpd (d : String) : ModelUpdate :=
  { device_id := d, version := 1, weight_updates := [("layer", [1])],
    num_samples := 0, training_loss := 0, validation_accuracy := 0,
    timestamp := "t" }

/-- The initial state with connectivity online. -/
def sOnline : ManagerState := { initState with is_online := true }

/-- A state whose full pending window consists of three zero-sample
updates (total samples 0), with connectivity online. -/
def sZero3 : ManagerState :=
  { initState with
    is_online := true
    pending_updates := [zUpd "a", zUpd "b", zUpd "c"] }

/-- A persisted global model over the single key `"layer1"`. -/
def gm1 : GlobalModel :=
  { version := 1, weights := [("layer1", [1])], participating_devices := 1,
    aggregation_timestamp := "t", average_loss := 0, average_accuracy := 1 }

/-- An online state that already holds `gm1` (persisted and current). -/
def sGlob : ManagerState :=
  { initState with
    is_online := true
    global_model := some gm1
    store := [(1, gm1)]
    latest := some gm1
    current_version := 1 }

/-- An update whose weight-key set (`{"other"}`) differs from the key
set of the current global model `gm1` (`{"layer1"}`). -/
def uBad : ModelUpdate :=
  { device_id := "X", version := 1, weight_updates := [("other", [2])],
    num_samples := 5, training_loss := 0, validation_accuracy := 0,
    timestamp := "t" }

/-- An operation sequence that performs one successful aggregation
(probe online, then two submissions filling the window to 2 of 3). -/
def exOps : List Op := [.monitorTick true, .submit updA, .submit updB]

/-- An example raw tensor: anchors 0 and 1 carry class-0 score `1/3`
with disjoint boxes; every other entry is `0`. -/
def exPreds : ℕ → ℕ → ℚ := fun r i =>
  if i = 0 then
    if r = 4 then 1/3 else if r ≤ 3 then 1/10 else 0
  else if i = 1 then
    if r = 4 then 1/3 else if r ≤ 1 then 1/2 else if r ≤ 3 then 1/10 else 0
  else 0

/-- The candidate `exPreds` produces at anchor 0. -/
def exDet0 : Detection := ⟨1/3, (1/20, 1/20, 3/20, 3/20)⟩

/-- The candidate `exPreds` produces at anchor 1. -/
def exDet1 : Detection := ⟨1/3, (9/20, 9/20, 11/20, 11/20)⟩

/-- The empty upload payload (every required field absent). -/
def emptyPayload : UploadPayload :=
  { device_id := none, version := none, weight_updates := none,
    num_samples := none, training_loss := none,
    validation_accuracy := none, timestamp := none }

/-- An online state two admitted updates into the window. -/
def sTwo : ManagerState :=
  { initState with
    is_online := true
    pending_updates := [updA, updB] }

/-- An online state two zero-sample updates into the window. -/
def sZero2 : ManagerState :=
  { initState with
    is_online := true
    pending_updates := [zUpd "a", zUpd "b"] }

/-- A zero-sample update carrying the `"model_path"` key, routing its
batch to the server's YOLO aggregation path (the path payload, a string
in the source, is not modelled — only the key's presence matters). -/
def yUpd (d : String) : ModelUpdate :=
  { device_id := d, version := 1, weight_updates := [("model_path", [])],
    num_samples := 0, training_loss := 0, validation_accuracy := 0,
    timestamp := "t" }

/-- A server that has already persisted `gm1`, with YOLO support
available and an empty queue. -/
def sServer : ServerState :=
  { pending_updates := [], current_version := 1, global_model := some gm1,
    store := [(1, gm1)], latest := some gm1, yolo_available := true,
    yolo_model_ready := false, now := "t" }

/-- The server `sServer` with a full window of three zero-sample YOLO
updates pending. -/
def tYolo3 : ServerState :=
  { sServer with pending_updates := [yUpd "a", yUpd "b", yUpd "c"] }

/-- A fresh server with a full window of three zero-sample non-YOLO
updates pending (routed to the traditional aggregation path). -/
def tZero3 : ServerState :=
  { pending_updates := [zUpd "a", zUpd "b", zUpd "c"], current_version := 0,
    global_model := none, store := [], latest := none, yolo_available := true,
    yolo_model_ready := false, now := "t" }

end UroSmart

namespace UroSmart

/-! ## Lemmas about `_aggregate_updates` and the manager state -/

theorem StateInv.store_le {t : ManagerState} (ht : StateInv t) :
    ∀ p ∈ t.store, p.1 ≤ t.current_version := by
  intro p hp
  unfold StateInv at ht
  cases hl : t.latest with
  | none => rw [hl] at ht; rw [ht] at hp; exact absurd hp (List.not_mem_nil p)
  | some gm =>
    rw [hl] at ht
    exact ht.1 ▸ ht.2.2 p hp

theorem store_any_succ_false (t : ManagerState) (ht : StateInv t) :
    (t.store.any fun p => p.1 = t.current_version + 1) = false := by
  rw [List.any_eq_false]
  intro p hp
  have := ht.store_le p hp
  simp only [decide_eq_true_eq]
  omega

theorem save_global_model_eq {t : ManagerState} {gm : GlobalModel}
    (hgm : t.global_model = some gm)
    (hany : (t.store.any fun p => p.1 = t.current_version) = false) :
    save_global_model t =
      { t with store := t.store ++ [(t.current_version, gm)], latest := some gm } := by
  unfold save_global_model
  rw [hgm]
  simp [hany]

theorem aggregate_updates_spec (s : ManagerState) :
    aggregate_updates s = (false, s) ∨
    ∃ w, computeAggregatedWeights s.pending_updates
        ((totalSamples s.pending_updates : ℕ) : ℚ) = some w ∧
      aggregate_updates s =
        (true,
         { save_global_model
             { s with
               current_version := s.current_version + 1
               global_model := some
                 { version := s.current_version + 1
                   weights := w
                   participating_devices := s.pending_updates.length
                   aggregation_timestamp := s.now
                   average_loss := (s.pending_updates.map (·.training_loss)).sum
                     / (s.pending_updates.length : ℚ)
                   average_accuracy :=
                     (s.pending_updates.map (·.validation_accuracy)).sum
                       / (s.pending_updates.length : ℚ) } }
           with pending_updates := [] }) := by
  unfold aggregate_updates
  dsimp only
  split
  · exact Or.inl rfl
  split
  · exact Or.inl rfl
  split
  · exact Or.inl rfl
  split
  · exact Or.inl rfl
  next w heq => exact Or.inr ⟨w, heq, rfl⟩

theorem aggregate_updates_fail (s : ManagerState)
    (h : (aggregate_updates s).1 = false) : (aggregate_updates s).2 = s := by
  rcases aggregate_updates_spec s with heq | ⟨w, _, heq⟩
  · rw [heq]
  · rw [heq] at h
    exact absurd h (by simp)

theorem save_after_bump (s : ManagerState) (hs : StateInv s) (gm : GlobalModel) :
    save_global_model
        { s with current_version := s.current_version + 1, global_model := some gm }
      = { s with
          current_version := s.current_version + 1
          global_model := some gm
          store := s.store ++ [(s.current_version + 1, gm)]
          latest := some gm } := by
  apply save_global_model_eq rfl
  exact store_any_succ_false s hs

theorem aggregate_updates_succ (s : ManagerState) (hs : StateInv s)
    (h : (aggregate_updates s).1 = true) :
    ∃ gm : GlobalModel, gm.version = s.current_version + 1 ∧
      (aggregate_updates s).2 =
        { pending_updates := []
          current_version := s.current_version + 1
          global_model := some gm
          is_online := s.is_online
          store := s.store ++ [(s.current_version + 1, gm)]
          latest := some gm
          now := s.now } := by
  rcases aggregate_updates_spec s with heq | ⟨w, hw, heq⟩
  · rw [heq] at h
    exact absurd h (by simp)
  · refine ⟨⟨s.current_version + 1, w, s.pending_updates.length, s.now,
      (s.pending_updates.map (·.training_loss)).sum / (s.pending_updates.length : ℚ),
      (s.pending_updates.map (·.validation_accuracy)).sum
        / (s.pending_updates.length : ℚ)⟩, rfl, ?_⟩
    rw [heq]
    dsimp only
    rw [save_after_bump s hs]

theorem aggregate_attempt_inv (t : ManagerState) (ht : StateInv t) :
    StateInv (aggregate_updates t).2 ∧
    (aggregate_updates t).2.current_version
      = t.current_version + (if (aggregate_updates t).1 then 1 else 0) ∧
    ((aggregate_updates t).1 = true →
      ∀ p ∈ t.store, p.1 ≠ (aggregate_updates t).2.current_version) := by
  cases hb : (aggregate_updates t).1 with
  | false =>
    have hst := aggregate_updates_fail t hb
    rw [hst]
    refine ⟨ht, by simp, ?_⟩
    intro hcontra
    exact absurd hcontra (by simp)
  | true =>
    obtain ⟨gm, hv, heq⟩ := aggregate_updates_succ t ht hb
    rw [heq]
    refine ⟨?_, by simp, ?_⟩
    · unfold StateInv
      dsimp only
      refine ⟨hv, ?_, ?_⟩
      · rw [hv]
        exact List.mem_append_right _ (List.mem_singleton.mpr rfl)
      · intro p hp
        rcases List.mem_append.mp hp with hp | hp
        · have := ht.store_le p hp
          omega
        · rw [List.mem_singleton.mp hp, hv]
    · intro _ p hp
      dsimp only
      have := ht.store_le p hp
      omega

theorem add_update_offline (s : ManagerState) (u : ModelUpdate)
    (h : is_connected s = false) :
    add_update s u =
      ({ status := "offline"
         message := "Update queued for when connection is available"
         queued := some true }, false, s) := by
  unfold add_update
  rw [h]
  rfl

theorem add_update_threshold (s : ManagerState) (u : ModelUpdate)
    (h : is_connected s = true)
    (hlen : AGGREGATION_THRESHOLD ≤ s.pending_updates.length + 1) :
    add_update s u =
      ({ status := "aggregated"
         message := "Update received and aggregated"
         new_version := some (aggregate_updates
           { s with pending_updates := s.pending_updates ++ [u] }).2.current_version
         pending_count := some 0 },
       (aggregate_updates { s with pending_updates := s.pending_updates ++ [u] }).1,
       (aggregate_updates { s with pending_updates := s.pending_updates ++ [u] }).2) := by
  unfold add_update
  rw [h]
  simp only [Bool.not_true, Bool.false_eq_true, if_false, List.length_append,
    List.length_singleton]
  rw [if_pos hlen]

theorem add_update_pending (s : ManagerState) (u : ModelUpdate)
    (h : is_connected s = true)
    (hlen : ¬ AGGREGATION_THRESHOLD ≤ s.pending_updates.length + 1) :
    add_update s u =
      ({ status := "pending"
         message := "Update received (" ++ toString (s.pending_updates.length + 1)
           ++ "/" ++ toString AGGREGATION_THRESHOLD ++ " pending)"
         pending_count := some (s.pending_updates.length + 1)
         threshold := some AGGREGATION_THRESHOLD },
       false, { s with pending_updates := s.pending_updates ++ [u] }) := by
  unfold add_update
  rw [h]
  simp only [Bool.not_true, Bool.false_eq_true, if_false, List.length_append,
    List.length_singleton]
  rw [if_neg hlen]

theorem stepR_inv (op : Op) (s : ManagerState) (hs : StateInv s) :
    StateInv (stepState op s) ∧
    (stepState op s).current_version
      = s.current_version + (if stepOk op s then 1 else 0) ∧
    (stepOk op s = true → ∀ p ∈ s.store, p.1 ≠ (stepState op s).current_version) := by
  cases op with
  | submit u =>
    unfold stepState stepOk
    simp only [stepR]
    by_cases hon : is_connected s = true
    · by_cases hlen : AGGREGATION_THRESHOLD ≤ s.pending_updates.length + 1
      · simp only [add_update_threshold s u hon hlen]
        exact aggregate_attempt_inv
          { s with pending_updates := s.pending_updates ++ [u] } hs
      · simp only [add_update_pending s u hon hlen]
        exact ⟨hs, by simp, by simp⟩
    · simp only [add_update_offline s u (by simpa using hon)]
      exact ⟨hs, by simp, by simp⟩
  | monitorTick b =>
    unfold stepState stepOk
    simp only [stepR]
    split
    · exact aggregate_attempt_inv { s with is_online := b } hs
    · exact ⟨hs, by simp, by simp⟩
  | timerTick =>
    unfold stepState stepOk
    simp only [stepR]
    split
    · exact aggregate_attempt_inv s hs
    · split
      · exact aggregate_attempt_inv s hs
      · exact ⟨hs, by simp, by simp⟩
  | reload =>
    unfold stepState stepOk
    simp only [stepR]
    unfold load_global_model
    cases hl : s.latest with
    | none =>
      simp only [hl]
      exact ⟨hs, by simp, by simp⟩
    | some gm =>
      have hsl := hs
      unfold StateInv at hsl
      rw [hl] at hsl
      obtain ⟨hv, hmem, hle⟩ := hsl
      simp only [hl]
      refine ⟨?_, by simp [hv], by simp⟩
      unfold StateInv
      dsimp only
      exact ⟨rfl, hmem, hle⟩

theorem run_from_inv :
    ∀ (ops : List Op) (s : ManagerState), StateInv s →
      StateInv (ops.foldl (fun s op => stepState op s) s)
  | [], _, h => h
  | op :: rest, s, h =>
    run_from_inv rest (stepState op s) (stepR_inv op s h).1

theorem initState_inv : StateInv initState := by
  unfold StateInv initState
  rfl

theorem run_inv (ops : List Op) : StateInv (run ops) :=
  run_from_inv ops initState initState_inv

theorem load_global_model_version (s : ManagerState) (hs : StateInv s) :
    (load_global_model s).current_version = s.current_version := by
  unfold load_global_model
  cases hl : s.latest with
  | none => rfl
  | some gm =>
    unfold StateInv at hs
    rw [hl] at hs
    exact hs.1

theorem server_save_global_model_fields (t : ServerState) :
    (server_save_global_model t).current_version = t.current_version ∧
    (server_save_global_model t).global_model = t.global_model ∧
    (server_save_global_model t).pending_updates = t.pending_updates := by
  unfold server_save_global_model
  split <;> exact ⟨rfl, rfl, rfl⟩

/-! ## Lemmas about the FedAvg weight computation -/

theorem getD_zerosLike (v : List ℚ) (j : ℕ) : (zerosLike v).getD j 0 = 0 := by
  induction v generalizing j with
  | nil => simp [zerosLike]
  | cons a t ih =>
    cases j with
    | zero => simp [zerosLike]
    | succ k => simp only [zerosLike, List.map_cons, List.getD_cons_succ]; exact ih k

theorem length_zerosLike (v : List ℚ) : (zerosLike v).length = v.length := by
  simp [zerosLike]

theorem getD_map_mul (w : ℚ) (v : List ℚ) (j : ℕ) :
    (v.map (· * w)).getD j 0 = v.getD j 0 * w := by
  induction v generalizing j with
  | nil => simp
  | cons a t ih =>
    cases j with
    | zero => simp
    | succ k => simpa using ih k

theorem getD_zipWith_add (a : List ℚ) :
    ∀ (b : List ℚ), b.length = a.length → ∀ (j : ℕ),
      (List.zipWith (· + ·) a b).getD j 0 = a.getD j 0 + b.getD j 0 := by
  induction a with
  | nil =>
    intro b hb j
    rw [List.length_nil, List.length_eq_zero] at hb
    subst hb
    simp
  | cons x xs ih =>
    intro b hb j
    cases b with
    | nil => simp at hb
    | cons y ys =>
      cases j with
      | zero => simp
      | succ k => simpa using ih ys (by simpa using hb) k

theorem list_eq_of_getD {a : List ℚ} :
    ∀ {b : List ℚ}, a.length = b.length →
      (∀ j, a.getD j 0 = b.getD j 0) → a = b := by
  induction a with
  | nil =>
    intro b hlen _
    rw [List.length_nil, eq_comm, List.length_eq_zero] at hlen
    rw [hlen]
  | cons x xs ih =>
    intro b hlen h
    cases b with
    | nil => simp at hlen
    | cons y ys =>
      have h0 := h 0
      simp only [List.getD_cons_zero] at h0
      have ht := ih (b := ys) (by simpa using hlen) (fun j => by simpa using h (j + 1))
      rw [h0, ht]

theorem accumulateKey_spec (key : String) (total : ℚ) :
    ∀ (us : List ModelUpdate) (acc : List ℚ),
      (∀ u ∈ us, ∃ v, lookupW u key = some v ∧ v.length = acc.length) →
      ∃ r, accumulateKey key total us acc = some r ∧ r.length = acc.length ∧
        ∀ j, r.getD j 0 = acc.getD j 0 +
          (us.map fun u =>
            (((lookupW u key).getD []).getD j 0) * ((u.num_samples : ℚ) / total)).sum
  | [], acc, _ => ⟨acc, rfl, rfl, by simp⟩
  | u :: us, acc, h => by
    obtain ⟨v, hv, hlen⟩ := h u (List.mem_cons_self u us)
    set w : ℚ := (u.num_samples : ℚ) / total with hw
    have hadd : npAddInPlace acc (v.map (· * w))
        = some (List.zipWith (· + ·) acc (v.map (· * w))) := by
      unfold npAddInPlace
      rw [if_pos (by simp [hlen])]
    set acc' := List.zipWith (· + ·) acc (v.map (· * w)) with hacc'
    have hlen' : acc'.length = acc.length := by
      simp [hacc', hlen]
    obtain ⟨r, hr, hrlen, hrspec⟩ :=
      accumulateKey_spec key total us acc'
        (fun x hx => by
          obtain ⟨vx, hvx, hvxlen⟩ := h x (List.mem_cons_of_mem u hx)
          exact ⟨vx, hvx, by rw [hvxlen, hlen']⟩)
    refine ⟨r, ?_, by rw [hrlen, hlen'], ?_⟩
    · simp only [accumulateKey, hv, hadd, Option.bind_eq_bind, Option.some_bind]
      exact hr
    · intro j
      rw [hrspec j]
      have hzip := getD_zipWith_add acc (v.map (· * w)) (by simp [hlen]) j
      rw [hacc'] at *
      rw [hzip, getD_map_mul]
      simp only [List.map_cons, List.sum_cons, hv, Option.getD_some]
      ring

theorem mapM_option_eq_some {α β : Type} (f : α → Option β) (g : α → β) :
    ∀ (l : List α), (∀ a ∈ l, f a = some (g a)) → l.mapM f = some (l.map g)
  | [], _ => rfl
  | a :: l, h => by
    have ha := h a (List.mem_cons_self a l)
    have hl := mapM_option_eq_some f g l (fun x hx => h x (List.mem_cons_of_mem a hx))
    rw [List.mapM_cons, ha, hl]
    rfl

theorem specFedAvg_length (us : List ModelUpdate) (key : String) (len : ℕ) :
    (specFedAvg us key len).length = len := by
  simp [specFedAvg]

theorem specFedAvg_getD (us : List ModelUpdate) (key : String) (len j : ℕ)
    (hj : j < len) :
    (specFedAvg us key len).getD j 0 =
      (us.map fun u =>
        ((u.num_samples : ℚ) / ((totalSamples us : ℕ) : ℚ))
          * (((lookupW u key).getD []).getD j 0)).sum := by
  unfold specFedAvg
  rw [List.getD_eq_getElem _ _ (by simpa using hj)]
  simp

theorem computeAggregatedWeights_spec (first : ModelUpdate) (rest : List ModelUpdate)
    (hcompat : ∀ k ∈ first.weight_updates.map Prod.fst, ∀ u ∈ first :: rest,
      ∃ v, lookupW u k = some v ∧ v.length = ((lookupW first k).getD []).length) :
    computeAggregatedWeights (first :: rest) ((totalSamples (first :: rest) : ℕ) : ℚ)
      = some ((first.weight_updates.map Prod.fst).map fun k =>
          (k, specFedAvg (first :: rest) k (((lookupW first k).getD []).length))) := by
  unfold computeAggregatedWeights
  apply mapM_option_eq_some
  intro k hk
  obtain ⟨v0, hv0, _⟩ := hcompat k hk first (List.mem_cons_self first rest)
  have hlen0 : ((lookupW first k).getD []).length = v0.length := by rw [hv0]; rfl
  obtain ⟨r, hr, hrlen, hrspec⟩ :=
    accumulateKey_spec k ((totalSamples (first :: rest) : ℕ) : ℚ) (first :: rest)
      (zerosLike v0)
      (fun u hu => by
        obtain ⟨vu, hvu, hvulen⟩ := hcompat k hk u hu
        exact ⟨vu, hvu, by rw [hvulen, hlen0, length_zerosLike]⟩)
  simp only [hv0, Option.getD_some, Option.bind_eq_bind, Option.some_bind, hr]
  congr 1
  congr 1
  apply list_eq_of_getD
  · rw [hrlen, length_zerosLike, specFedAvg_length]
  · intro j
    rw [hrspec j, getD_zerosLike, zero_add]
    by_cases hj : j < v0.length
    · rw [specFedAvg_getD _ _ _ _ hj]
      congr 1
      apply List.map_congr_left
      intro u _
      ring
    · have hz1 : ∀ u ∈ (first :: rest),
          (((lookupW u k).getD []).getD j 0) * ((u.num_samples : ℚ)
            / ((totalSamples (first :: rest) : ℕ) : ℚ)) = 0 := by
        intro u hu
        obtain ⟨vu, hvu, hvulen⟩ := hcompat k hk u hu
        rw [hvu, Option.getD_some,
          List.getD_eq_default _ _ (by rw [hvulen, hlen0]; omega), zero_mul]
      rw [List.sum_eq_zero (by
        intro x hx
        obtain ⟨u, hu, rfl⟩ := List.mem_map.mp hx
        exact hz1 u hu)]
      rw [eq_comm, List.getD_eq_default]
      rw [specFedAvg_length]
      omega

/-! ## Lemmas about IoU -/

theorem interArea_self {x1 y1 x2 y2 : ℚ} (hx : x1 ≤ x2) (hy : y1 ≤ y2) :
    interArea (x1, y1, x2, y2) (x1, y1, x2, y2) = (x2 - x1) * (y2 - y1) := by
  simp only [interArea, max_self, min_self]
  rw [max_eq_right (sub_nonneg.mpr hx), max_eq_right (sub_nonneg.mpr hy)]

theorem iou_self_of_pos_area {x1 y1 x2 y2 : ℚ} (hx : x1 < x2) (hy : y1 < y2) :
    iou (x1, y1, x2, y2) (x1, y1, x2, y2) = 1 := by
  have hA : 0 < (x2 - x1) * (y2 - y1) :=
    mul_pos (sub_pos.mpr hx) (sub_pos.mpr hy)
  have hi : interArea (x1, y1, x2, y2) (x1, y1, x2, y2) = (x2 - x1) * (y2 - y1) :=
    interArea_self hx.le hy.le
  have hu : unionArea (x1, y1, x2, y2) (x1, y1, x2, y2) = (x2 - x1) * (y2 - y1) := by
    simp only [unionArea, hi]
    ring
  rw [iou, hu, hi, if_neg hA.ne']
  exact div_self hA.ne'

theorem interArea_eq_zero_of_separated {x1 y1 x2 y2 u1 v1 u2 v2 : ℚ}
    (h : min x2 u2 ≤ max x1 u1 ∨ min y2 v2 ≤ max y1 v1) :
    interArea (x1, y1, x2, y2) (u1, v1, u2, v2) = 0 := by
  simp only [interArea]
  rcases h with h | h
  · rw [max_eq_left (sub_nonpos.mpr h), zero_mul]
  · rw [max_eq_left (sub_nonpos.mpr h), mul_zero]

theorem iou_eq_zero_of_inter_zero {b1 b2 : Box} (h : interArea b1 b2 = 0) :
    iou b1 b2 = 0 := by
  rw [iou]
  split
  · rfl
  · rw [h, zero_div]

theorem iou_disjoint {x1 y1 x2 y2 u1 v1 u2 v2 : ℚ}
    (h : min x2 u2 ≤ max x1 u1 ∨ min y2 v2 ≤ max y1 v1) :
    iou (x1, y1, x2, y2) (u1, v1, u2, v2) = 0 :=
  iou_eq_zero_of_inter_zero (interArea_eq_zero_of_separated h)

theorem iou_union_zero {b1 b2 : Box} (h : unionArea b1 b2 = 0) :
    iou b1 b2 = 0 := by
  rw [iou, if_pos h]

theorem iou_degenerate_left {x1 y1 x2 y2 : ℚ} (b2 : Box)
    (h : x2 ≤ x1 ∨ y2 ≤ y1) :
    iou (x1, y1, x2, y2) b2 = 0 := by
  obtain ⟨u1, v1, u2, v2⟩ := b2
  refine iou_eq_zero_of_inter_zero (interArea_eq_zero_of_separated ?_)
  rcases h with h | h
  · exact Or.inl ((min_le_left x2 u2).trans (h.trans (le_max_left x1 u1)))
  · exact Or.inr ((min_le_left y2 v2).trans (h.trans (le_max_left y1 v1)))

/-! ## Lemmas about the stable descending sort -/

theorem mem_insertByConf {d x : Detection} {l : List Detection} :
    x ∈ insertByConf d l ↔ x = d ∨ x ∈ l := by
  induction l with
  | nil => simp [insertByConf]
  | cons y ys ih =>
    simp only [insertByConf]
    split
    · exact List.mem_cons
    · rw [List.mem_cons, ih, List.mem_cons]
      tauto

theorem insertByConf_perm (d : Detection) (l : List Detection) :
    List.Perm (insertByConf d l) (d :: l) := by
  induction l with
  | nil => simp [insertByConf]
  | cons y ys ih =>
    by_cases h : y.confidence < d.confidence
    · simp [insertByConf, h]
    · simp only [insertByConf, if_neg h]
      exact (ih.cons y).trans (List.Perm.swap d y ys)

theorem pairwise_insertByConf {l : List Detection} (d : Detection)
    (h : SortedDesc l) : SortedDesc (insertByConf d l) := by
  induction l with
  | nil => simp [insertByConf, SortedDesc]
  | cons y ys ih =>
    rcases List.pairwise_cons.mp h with ⟨hy, hys⟩
    by_cases hc : y.confidence < d.confidence
    · simp only [insertByConf, if_pos hc]
      refine List.pairwise_cons.mpr ⟨?_, h⟩
      intro z hz
      rcases List.mem_cons.mp hz with rfl | hz
      · exact le_of_lt hc
      · exact (hy z hz).trans (le_of_lt hc)
    · simp only [insertByConf, if_neg hc]
      refine List.pairwise_cons.mpr ⟨?_, ih hys⟩
      intro z hz
      rcases mem_insertByConf.mp hz with rfl | hz
      · exact le_of_not_lt hc
      · exact hy z hz

theorem foldl_insert_pairwise :
    ∀ (l : List Detection) (acc : List Detection), SortedDesc acc →
      SortedDesc (l.foldl (fun acc d => insertByConf d acc) acc)
  | [], _, h => h
  | d :: rest, acc, h =>
    foldl_insert_pairwise rest (insertByConf d acc) (pairwise_insertByConf d h)

theorem sortDescConf_sorted (l : List Detection) : SortedDesc (sortDescConf l) :=
  foldl_insert_pairwise l [] (by simp [SortedDesc])

theorem foldl_insert_perm :
    ∀ (l : List Detection) (acc : List Detection),
      List.Perm (l.foldl (fun acc d => insertByConf d acc) acc) (acc ++ l)
  | [], acc => by simp
  | d :: rest, acc =>
    ((foldl_insert_perm rest (insertByConf d acc)).trans
      ((insertByConf_perm d acc).append_right rest)).trans List.perm_middle.symm

theorem sortDescConf_perm (l : List Detection) :
    List.Perm (sortDescConf l) l := by
  simpa using foldl_insert_perm l []

theorem mem_sortDescConf {x : Detection} {l : List Detection} :
    x ∈ sortDescConf l ↔ x ∈ l :=
  (sortDescConf_perm l).mem_iff

theorem foldl_insert_cons_of_le :
    ∀ (l : List Detection) (acc : List Detection) (a : Detection),
      (∀ x ∈ l, x.confidence ≤ a.confidence) →
      l.foldl (fun acc d => insertByConf d acc) (a :: acc)
        = a :: l.foldl (fun acc d => insertByConf d acc) acc
  | [], _, _, _ => rfl
  | d :: rest, acc, a, h => by
    have hd : ¬ a.confidence < d.confidence :=
      not_lt.mpr (h d (List.mem_cons_self d rest))
    simp only [List.foldl_cons, insertByConf, if_neg hd]
    exact foldl_insert_cons_of_le rest (insertByConf d acc) a
      (fun x hx => h x (List.mem_cons_of_mem d hx))

theorem sortDescConf_eq_of_sorted {l : List Detection} (h : SortedDesc l) :
    sortDescConf l = l := by
  induction l with
  | nil => rfl
  | cons a t ih =>
    rcases List.pairwise_cons.mp h with ⟨ha, ht⟩
    show (a :: t).foldl (fun acc d => insertByConf d acc) [] = a :: t
    rw [List.foldl_cons]
    have h1 : insertByConf a [] = a :: [] := rfl
    rw [h1, foldl_insert_cons_of_le t [] a ha]
    exact congrArg (a :: ·) (ih ht)

theorem sortDescConf_idem (l : List Detection) :
    sortDescConf (sortDescConf l) = sortDescConf l :=
  sortDescConf_eq_of_sorted (sortDescConf_sorted l)

/-! ## Lemmas about the NMS loop -/

theorem nmsLoop_sublist (thr : ℚ) :
    ∀ (l : List Detection), (nmsLoop thr l).Sublist l
  | [] => by rw [nmsLoop]
  | best :: rest => by
    rw [nmsLoop]
    refine List.Sublist.cons₂ best ?_
    exact (nmsLoop_sublist thr _).trans (List.filter_sublist rest)
termination_by l => l.length
decreasing_by
  simp only [List.length_cons, Nat.lt_succ_iff]
  exact List.length_filter_le _ _

theorem nmsLoop_ne_nil (thr : ℚ) (l : List Detection) (h : l ≠ []) :
    nmsLoop thr l ≠ [] := by
  cases l with
  | nil => exact absurd rfl h
  | cons best rest => rw [nmsLoop]; simp

theorem nmsLoop_pairwise_iou (thr : ℚ) :
    ∀ (l : List Detection),
      (nmsLoop thr l).Pairwise fun a b => iou a.bbox b.bbox < thr
  | [] => by rw [nmsLoop]; exact List.Pairwise.nil
  | best :: rest => by
    rw [nmsLoop]
    refine List.pairwise_cons.mpr ⟨?_, nmsLoop_pairwise_iou thr _⟩
    intro d hd
    have hmem := (nmsLoop_sublist thr _).mem hd
    exact of_decide_eq_true (List.mem_filter.mp hmem).2
termination_by l => l.length
decreasing_by
  simp only [List.length_cons, Nat.lt_succ_iff]
  exact List.length_filter_le _ _

theorem nmsLoop_complete (thr : ℚ) :
    ∀ (l : List Detection), SortedDesc l → ∀ d ∈ l,
      d ∈ nmsLoop thr l ∨
        ∃ k ∈ nmsLoop thr l, d.confidence ≤ k.confidence ∧ thr ≤ iou k.bbox d.bbox
  | [], _, d, hd => absurd hd (List.not_mem_nil d)
  | best :: rest, hs, d, hd => by
    rcases List.pairwise_cons.mp hs with ⟨hbest, hrest⟩
    rw [nmsLoop]
    rcases List.mem_cons.mp hd with rfl | hd
    · exact Or.inl (List.mem_cons_self _ _)
    · by_cases hiou : iou best.bbox d.bbox < thr
      · have hd' : d ∈ rest.filter fun x => decide (iou best.bbox x.bbox < thr) :=
          List.mem_filter.mpr ⟨hd, decide_eq_true hiou⟩
        have hsorted : SortedDesc (rest.filter fun x => decide (iou best.bbox x.bbox < thr)) :=
          hrest.sublist (List.filter_sublist rest)
        rcases nmsLoop_complete thr _ hsorted d hd' with h | ⟨k, hk, hck, hik⟩
        · exact Or.inl (List.mem_cons_of_mem best h)
        · exact Or.inr ⟨k, List.mem_cons_of_mem best hk, hck, hik⟩
      · exact Or.inr ⟨best, List.mem_cons_self _ _, hbest d hd, le_of_not_lt hiou⟩
termination_by l => l.length
decreasing_by
  simp only [List.length_cons, Nat.lt_succ_iff]
  exact List.length_filter_le _ _

/-! ## Lemmas about `postprocess_yolo` -/

theorem nms_sortDescConf (l : List Detection) (thr : ℚ) :
    nms (sortDescConf l) thr = nms l thr := by
  unfold nms
  rw [sortDescConf_idem]

theorem sortDescConf_eq_nil_iff (l : List Detection) :
    sortDescConf l = [] ↔ l = [] := by
  constructor
  · intro h
    have hp := sortDescConf_perm l
    rw [h] at hp
    exact hp.symm.eq_nil
  · intro h
    rw [h]
    rfl

theorem nms_eq_nil_iff (l : List Detection) (thr : ℚ) :
    nms l thr = [] ↔ l = [] := by
  constructor
  · intro h
    by_contra hne
    exact nmsLoop_ne_nil thr (sortDescConf l)
      (fun hc => hne ((sortDescConf_eq_nil_iff l).mp hc)) h
  · intro h
    rw [h]
    unfold nms
    rw [show sortDescConf ([] : List Detection) = [] from rfl, nmsLoop]

theorem summarizeClass_spec (dets : List Detection) :
    (summarizeClass dets).present = decide (dets ≠ []) ∧
    (summarizeClass dets).count = (nms dets (45/100)).length ∧
    (summarizeClass dets).confidence =
      (if dets = [] then 0 else
        pyRound3 (((nms dets (45/100)).map (·.confidence)).sum
          / ((nms dets (45/100)).length : ℚ))) ∧
    (summarizeClass dets).detections = (nms dets (45/100)).take 10 ∧
    SortedDesc (nms dets (45/100)) ∧
    (nms dets (45/100)).Sublist (sortDescConf dets) ∧
    (nms dets (45/100) = [] ↔ dets = []) := by
  have hsub : (nms dets (45/100)).Sublist (sortDescConf dets) :=
    nmsLoop_sublist _ _
  have hsorted : SortedDesc (nms dets (45/100)) :=
    (sortDescConf_sorted dets).sublist hsub
  by_cases h : dets = []
  · subst h
    have hnil : nms ([] : List Detection) (45/100) = [] :=
      (nms_eq_nil_iff [] _).mpr rfl
    rw [hnil]
    exact ⟨rfl, rfl, rfl, rfl, List.Pairwise.nil, List.nil_sublist _, by simp [hnil]⟩
  · have hlen : 0 < dets.length := by
      cases dets with
      | nil => exact absurd rfl h
      | cons a t => simp
    unfold summarizeClass
    rw [if_pos hlen]
    dsimp only
    rw [nms_sortDescConf]
    refine ⟨by simp [h], rfl, ?_, rfl, hsorted, hsub, nms_eq_nil_iff dets _⟩
    rw [if_neg h]

theorem postprocess_yolo_eq (p : ℕ → ℕ → ℚ) (t : ℚ) :
    postprocess_yolo p t =
      [("calcium_oxalate", summarizeClass (detectionsByClass p t 0)),
       ("squamous_cells", summarizeClass (detectionsByClass p t 1)),
       ("triple_phosphate", summarizeClass (detectionsByClass p t 2)),
       ("uric_acid", summarizeClass (detectionsByClass p t 3)),
       ("yeast", summarizeClass (detectionsByClass p t 4))] := by
  unfold postprocess_yolo num_classes
  rfl

theorem filterMap_range_eq_of_none {α : Type} (f : ℕ → Option α) (m : ℕ) :
    ∀ (n : ℕ), m ≤ n → (∀ i, m ≤ i → f i = none) →
      (List.range n).filterMap f = (List.range m).filterMap f
  | 0, hmn, _ => by
    rw [Nat.le_zero.mp hmn]
  | k + 1, hmn, h => by
    by_cases hk : m = k + 1
    · rw [hk]
    · have hmk : m ≤ k := by omega
      rw [List.range_succ, List.filterMap_append]
      rw [filterMap_range_eq_of_none f m k hmk h]
      simp [h k hmk]

theorem detectionsByClass_exPreds0 :
    detectionsByClass exPreds (1/4) 0 = [exDet0, exDet1] := by
  unfold detectionsByClass
  rw [filterMap_range_eq_of_none _ 2 num_predictions
      (by norm_num [num_predictions])
      (fun i hi => by
        have h0 : ¬ i = 0 := by omega
        have h1 : ¬ i = 1 := by omega
        simp only [candidateAt, exPreds, h0, h1, if_false]
        norm_num)]
  with_unfolding_all decide



/-! ## Claim theorems -/

/-- C1: for every non-empty pending batch with positive total sample
count (whose updates all carry the first update's weight keys with
matching vector lengths, as any batch that aggregates without error
does), the aggregated weight computed by `_aggregate_updates` for each
key equals the elementwise sample-weighted average
`Σ_i (num_samples_i / total) * update_i.weight_updates[key]`; in
particular, for update A (10 samples, `[1, 2]`) and update B
(30 samples, `[3, 4]`), the aggregated vector is `[5/2, 7/2]`,
i.e. `[2.5, 3.5]`. -/
theorem C1_fedavg_weighted_average (first : ModelUpdate) (rest : List ModelUpdate)
    (htotal : 0 < totalSamples (first :: rest))
    (hcompat : ∀ k ∈ first.weight_updates.map Prod.fst, ∀ u ∈ first :: rest,
      ∃ v, lookupW u k = some v ∧ v.length = ((lookupW first k).getD []).length) :
    (∃ ws, computeAggregatedWeights (first :: rest)
        ((totalSamples (first :: rest) : ℕ) : ℚ) = some ws ∧
      ∀ p ∈ ws, p.2 = specFedAvg (first :: rest) p.1
        (((lookupW first p.1).getD []).length)) ∧
    computeAggregatedWeights [updA, updB]
        ((totalSamples [updA, updB] : ℕ) : ℚ)
      = some [("layer", [5/2, 7/2])] := by
  constructor
  · refine ⟨_, computeAggregatedWeights_spec first rest hcompat, ?_⟩
    intro p hp
    obtain ⟨k, hk, rfl⟩ := List.mem_map.mp hp
    rfl
  · with_unfolding_all decide

/-- Witness for C1 at the spec's concrete example batch `[updA, updB]`. -/
theorem C1_fedavg_weighted_average_witness :
    (∃ ws, computeAggregatedWeights (updA :: [updB])
        ((totalSamples (updA :: [updB]) : ℕ) : ℚ) = some ws ∧
      ∀ p ∈ ws, p.2 = specFedAvg (updA :: [updB]) p.1
        (((lookupW updA p.1).getD []).length)) ∧
    computeAggregatedWeights [updA, updB]
        ((totalSamples [updA, updB] : ℕ) : ℚ)
      = some [("layer", [5/2, 7/2])] :=
  C1_fedavg_weighted_average updA [updB] (by with_unfolding_all decide)
    (by with_unfolding_all decide)

/-- C2: along every operation sequence from the initial state, the
version/persistence invariant holds (the `latest` artifact carries the
current version, is persisted, and no persisted artifact has a higher
version); every further operation changes the version by exactly 1 when
it performs a successful aggregation and by 0 otherwise (so the version
is never decremented); a successful aggregation never reuses a
persisted version number; and a reload from persisted state restores
the same current version. -/
theorem C2_version_invariants (ops : List Op) (op : Op) :
    StateInv (run ops) ∧
    (∀ gm, (run ops).latest = some gm →
      gm.version = (run ops).current_version ∧
      (gm.version, gm) ∈ (run ops).store ∧
      ∀ p ∈ (run ops).store, p.1 ≤ gm.version) ∧
    (stepState op (run ops)).current_version
      = (run ops).current_version + (if stepOk op (run ops) then 1 else 0) ∧
    (stepOk op (run ops) = true →
      ∀ p ∈ (run ops).store, p.1 ≠ (stepState op (run ops)).current_version) ∧
    (load_global_model (run ops)).current_version = (run ops).current_version := by
  have hinv := run_inv ops
  have hstep := stepR_inv op (run ops) hinv
  refine ⟨hinv, ?_, hstep.2.1, hstep.2.2, load_global_model_version _ hinv⟩
  intro gm hgm
  have h := hinv
  unfold StateInv at h
  rw [hgm] at h
  exact h

/-- Witness for C2: after probing online and admitting `updA`, `updB`,
the submission of `updC` performs the successful aggregation bumping
the version from 0 to 1. -/
theorem C2_version_invariants_witness :
    (StateInv (run exOps) ∧
      (∀ gm, (run exOps).latest = some gm →
        gm.version = (run exOps).current_version ∧
        (gm.version, gm) ∈ (run exOps).store ∧
        ∀ p ∈ (run exOps).store, p.1 ≤ gm.version) ∧
      (stepState (Op.submit updC) (run exOps)).current_version
        = (run exOps).current_version
          + (if stepOk (Op.submit updC) (run exOps) then 1 else 0) ∧
      (stepOk (Op.submit updC) (run exOps) = true →
        ∀ p ∈ (run exOps).store,
          p.1 ≠ (stepState (Op.submit updC) (run exOps)).current_version) ∧
      (load_global_model (run exOps)).current_version
        = (run exOps).current_version) ∧
    stepOk (Op.submit updC) (run exOps) = true ∧
    (run exOps).current_version = 0 ∧
    (stepState (Op.submit updC) (run exOps)).current_version = 1 :=
  ⟨C2_version_invariants exOps (Op.submit updC),
   by with_unfolding_all decide,
   by with_unfolding_all decide,
   by with_unfolding_all decide⟩

/-- C3: while connectivity is offline, `add_update` returns the
explicit `"offline"` status, does not enqueue the update, attempts no
aggregation, and leaves the whole manager state (pending queue, global
model, version, persisted artifacts) unchanged. -/
theorem C3_offline_rejection (s : ManagerState) (u : ModelUpdate)
    (h : s.is_online = false) :
    (add_update s u).1.status = "offline" ∧
    (add_update s u).1.queued = some true ∧
    (add_update s u).2.1 = false ∧
    (add_update s u).2.2 = s := by
  rw [add_update_offline s u (by simp [is_connected, h])]
  exact ⟨rfl, rfl, rfl, rfl⟩

/-- Witness for C3: the initial state is offline; three successive
offline submissions all report `"offline"` and leave the state exactly
initial. -/
theorem C3_offline_rejection_witness :
    initState.is_online = false ∧
    (add_update initState updA).1.status = "offline" ∧
    (add_update initState updA).2.2 = initState ∧
    (add_update ((add_update ((add_update initState updA).2.2) updB).2.2)
      updC).2.2 = initState :=
  ⟨rfl, (C3_offline_rejection initState updA rfl).1,
   (C3_offline_rejection initState updA rfl).2.2.2,
   by with_unfolding_all decide⟩



/-- C4 counterexample: with a current global model over the key set
`{"layer1"}`, an online submission whose key set is `{"other"}` is not
rejected: `add_update` answers `"pending"` and enqueues it (the state
is mutated), refuting "fails with a ValidationError — with no state
mutation — whenever … the key sets mismatch". -/
theorem C4_counterexample :
    sGlob.global_model = some gm1 ∧
    gm1.weights.map Prod.fst = ["layer1"] ∧
    uBad.weight_updates.map Prod.fst = ["other"] ∧
    (add_update sGlob uBad).1.status = "pending" ∧
    (add_update sGlob uBad).2.2.pending_updates = [uBad] := by
  with_unfolding_all decide

/-- C4 (amended): the manager's `add_update` performs no validation at
all — every update submitted while online is admitted (status
`"pending"` or `"aggregated"`), and on `"pending"` it is enqueued
verbatim regardless of its weight-key set; required-field checking
exists only in the server endpoint `upload_update`, whose
validation-and-construction prefix returns the 400 "Missing required
fields" rejection (before the aggregator is ever reached, hence with no
state mutation) exactly when some required field is absent. -/
theorem C4_no_validation_in_add_update (s : ManagerState) (u : ModelUpdate)
    (hon : s.is_online = true) :
    ((add_update s u).1.status = "pending" ∨
      (add_update s u).1.status = "aggregated") ∧
    ((add_update s u).1.status = "pending" →
      (add_update s u).2.2.pending_updates = s.pending_updates ++ [u]) ∧
    (∀ d : UploadPayload,
      (uploadUpdateValidate d).isSome = requiredFieldsPresent d) := by
  have hon' : is_connected s = true := by simp [is_connected, hon]
  refine ⟨?_, ?_, ?_⟩
  · by_cases hlen : AGGREGATION_THRESHOLD ≤ s.pending_updates.length + 1
    · rw [add_update_threshold s u hon' hlen]
      exact Or.inr rfl
    · rw [add_update_pending s u hon' hlen]
      exact Or.inl rfl
  · intro hp
    by_cases hlen : AGGREGATION_THRESHOLD ≤ s.pending_updates.length + 1
    · rw [add_update_threshold s u hon' hlen] at hp
      exact absurd hp (by simp)
    · rw [add_update_pending s u hon' hlen]
  · intro d
    unfold uploadUpdateValidate
    by_cases hd : requiredFieldsPresent d = true
    · rw [if_pos hd, hd]
      rfl
    · rw [if_neg hd]
      simp only [Bool.not_eq_true] at hd
      rw [hd]
      rfl

/-- Witness for C4 (amended): the mismatched-key update is admitted as
`"pending"`, and the all-absent payload fails the field check. -/
theorem C4_no_validation_in_add_update_witness :
    ((add_update sGlob uBad).1.status = "pending" ∨
      (add_update sGlob uBad).1.status = "aggregated") ∧
    (uploadUpdateValidate emptyPayload).isSome
      = requiredFieldsPresent emptyPayload ∧
    requiredFieldsPresent emptyPayload = false :=
  ⟨(C4_no_validation_in_add_update sGlob uBad rfl).1,
   (C4_no_validation_in_add_update sGlob uBad rfl).2.2 emptyPayload,
   by with_unfolding_all decide⟩

/-- C5 counterexample: three zero-sample updates admitted online — the
third call answers `"aggregated"`, yet the pending queue is not empty
after the call returns (the internal aggregation failed on total
samples 0), refuting "the pending queue is empty immediately after the
call returns". -/
theorem C5_counterexample :
    ((add_update ((add_update ((add_update sOnline (zUpd "a")).2.2)
        (zUpd "b")).2.2) (zUpd "c")).1.status = "aggregated") ∧
    (add_update ((add_update ((add_update sOnline (zUpd "a")).2.2)
        (zUpd "b")).2.2) (zUpd "c")).2.2.pending_updates
      = [zUpd "a", zUpd "b", zUpd "c"] := by
  with_unfolding_all decide

/-- C5 (amended): with the threshold at its default of 3, the third
update admitted while online causes aggregation to be attempted
synchronously within the same `add_update` call (the returned state is
exactly the state of `_aggregate_updates` on the enqueued window); if
that aggregation succeeds the pending queue is empty immediately after
the call returns, and if it fails the queue retains all three
updates. -/
theorem C5_threshold_synchronous_aggregation (s : ManagerState) (u : ModelUpdate)
    (hon : s.is_online = true) (hlen : s.pending_updates.length = 2) :
    (add_update s u).2.2
      = (aggregate_updates { s with pending_updates := s.pending_updates ++ [u] }).2 ∧
    (add_update s u).1.status = "aggregated" ∧
    ((aggregate_updates { s with pending_updates := s.pending_updates ++ [u] }).1 = true →
      (add_update s u).2.2.pending_updates = []) ∧
    ((aggregate_updates { s with pending_updates := s.pending_updates ++ [u] }).1 = false →
      (add_update s u).2.2.pending_updates = s.pending_updates ++ [u]) := by
  have hon' : is_connected s = true := by simp [is_connected, hon]
  have h3 : AGGREGATION_THRESHOLD ≤ s.pending_updates.length + 1 := by
    rw [hlen]
    decide
  simp only [add_update_threshold s u hon' h3]
  refine ⟨trivial, trivial, ?_, ?_⟩
  · intro hb
    rcases aggregate_updates_spec
        { s with pending_updates := s.pending_updates ++ [u] } with heq | ⟨w, hw, heq⟩
    · rw [heq] at hb
      exact absurd hb (by simp)
    · rw [heq]
  · intro hb
    rw [aggregate_updates_fail _ hb]

/-- Witness for C5 (amended): from two good pending updates, submitting
`updC` aggregates successfully and empties the queue. -/
theorem C5_threshold_synchronous_aggregation_witness :
    (add_update sTwo updC).1.status = "aggregated" ∧
    (aggregate_updates
      { sTwo with pending_updates := sTwo.pending_updates ++ [updC] }).1 = true ∧
    (add_update sTwo updC).2.2.pending_updates = [] :=
  ⟨(C5_threshold_synchronous_aggregation sTwo updC rfl rfl).2.1,
   by with_unfolding_all decide,
   (C5_threshold_synchronous_aggregation sTwo updC rfl rfl).2.2.1
     (by with_unfolding_all decide)⟩

/-- C6 counterexample: in the server aggregator
(`FederatedAggregator`), a full window of three zero-sample updates
carrying the `"model_path"` key is routed to the YOLO path, whose
aggregation aborts on total samples 0 (version not bumped, no new
global model) — yet the common tail of `_aggregate_updates` still runs
`pending_updates.clear()`, so the aborted batch is silently dropped
instead of being "retained verbatim"; reached here through three
`add_update` calls, the third of which triggers the aggregation. -/
theorem C6_counterexample :
    totalSamples [yUpd "a", yUpd "b", yUpd "c"] = 0 ∧
    ((server_add_update ((server_add_update sServer (yUpd "a")).2)
        (yUpd "b")).2).pending_updates = [yUpd "a", yUpd "b"] ∧
    (server_add_update ((server_add_update ((server_add_update sServer
        (yUpd "a")).2) (yUpd "b")).2) (yUpd "c")).2.pending_updates = [] ∧
    (server_add_update ((server_add_update ((server_add_update sServer
        (yUpd "a")).2) (yUpd "b")).2) (yUpd "c")).2.current_version
      = sServer.current_version ∧
    (server_add_update ((server_add_update ((server_add_update sServer
        (yUpd "a")).2) (yUpd "b")).2) (yUpd "c")).2.global_model
      = sServer.global_model := by
  with_unfolding_all decide

/-- C6 (amended): in the manager (`FederatedLearningManager`), whenever
`_aggregate_updates` aborts (returns `False` — empty queue, offline,
zero total samples, or an exception from a missing key or a
non-broadcastable shape mismatch caught by the `except`), the entire
batch is abandoned atomically exactly as originally claimed: the state
is unchanged, so the pending queue is retained verbatim, the version is
not bumped, no new global model is constructed or persisted, the error
is non-fatal, and the next trigger retries with the same queue (a
zero-total batch does abort).  In the server variant
(`FederatedAggregator._aggregate_updates`), retention holds only on the
traditional path: its zero-total abort returns before the clearing
tail with the state unchanged, and a mid-aggregation exception leaves
the state unchanged because the clear is never reached — but it
propagates uncaught rather than being logged non-fatally; on the YOLO
path, an aborting zero-total batch nonetheless falls through to the
common tail, which clears the pending queue (version and model
unchanged), silently dropping the batch. -/
theorem C6_abort_atomicity (s : ManagerState) (t : ServerState)
    (habort : (aggregate_updates s).1 = false) :
    ((aggregate_updates s).2 = s ∧
      (aggregate_updates s).2.pending_updates = s.pending_updates ∧
      (aggregate_updates s).2.current_version = s.current_version ∧
      (aggregate_updates s).2.global_model = s.global_model ∧
      (aggregate_updates s).2.store = s.store ∧
      (aggregate_updates s).2.latest = s.latest ∧
      (totalSamples s.pending_updates = 0 → (aggregate_updates s).1 = false)) ∧
    ((server_has_yolo_updates t && t.yolo_available) = false →
      totalSamples t.pending_updates = 0 →
      server_aggregate_updates t = (true, t)) ∧
    ((server_has_yolo_updates t && t.yolo_available) = false →
      computeAggregatedWeights t.pending_updates
          ((totalSamples t.pending_updates : ℕ) : ℚ) = none →
      totalSamples t.pending_updates ≠ 0 →
      server_aggregate_updates t = (false, t)) ∧
    ((server_has_yolo_updates t && t.yolo_available) = true →
      t.pending_updates ≠ [] →
      totalSamples t.pending_updates = 0 →
      (server_aggregate_updates t).2.pending_updates = [] ∧
      (server_aggregate_updates t).2.current_version = t.current_version ∧
      (server_aggregate_updates t).2.global_model = t.global_model) := by
  refine ⟨?_, ?_, ?_, ?_⟩
  · rw [aggregate_updates_fail s habort]
    exact ⟨rfl, rfl, rfl, rfl, rfl, rfl, fun _ => habort⟩
  · intro hny htot
    unfold server_aggregate_updates
    split
    · rfl
    · rw [if_neg (show ¬ (server_has_yolo_updates t && t.yolo_available) = true by
        rw [hny]; exact Bool.false_ne_true)]
  · intro hny hw htot
    unfold server_aggregate_updates
    split
    · next hlen =>
      rw [List.length_eq_zero.mp hlen] at htot
      exact absurd rfl htot
    · rw [if_neg (show ¬ (server_has_yolo_updates t && t.yolo_available) = true by
        rw [hny]; exact Bool.false_ne_true), hw]
  · intro hy hne htot
    unfold server_aggregate_updates
    split
    · next hlen => exact absurd (List.length_eq_zero.mp hlen) hne
    · have hyolo : server_aggregate_yolo_models t = t := by
        unfold server_aggregate_yolo_models
        first
        | rfl
        | rw [if_pos htot]
      rw [hyolo]
      unfold server_aggregate_tail
      dsimp only
      exact ⟨rfl, (server_save_global_model_fields t).1,
        (server_save_global_model_fields t).2.1⟩

/-- Witness for C6 (amended): the manager's abort at the three-zero-
sample state retains its state verbatim; the server's traditional path
retains the same zero-total batch; and the server's YOLO path clears
it. -/
theorem C6_abort_atomicity_witness :
    (aggregate_updates sZero3).1 = false ∧
    (aggregate_updates sZero3).2 = sZero3 ∧
    server_aggregate_updates tZero3 = (true, tZero3) ∧
    (server_aggregate_updates tYolo3).2.pending_updates = [] ∧
    (server_aggregate_updates tYolo3).2.current_version
      = tYolo3.current_version :=
  ⟨by with_unfolding_all decide,
   (C6_abort_atomicity sZero3 tZero3 (by with_unfolding_all decide)).1.1,
   (C6_abort_atomicity sZero3 tZero3 (by with_unfolding_all decide)).2.1
     (by with_unfolding_all decide) (by with_unfolding_all decide),
   ((C6_abort_atomicity sZero3 tYolo3 (by with_unfolding_all decide)).2.2.2
     (by with_unfolding_all decide) (by with_unfolding_all decide)
     (by with_unfolding_all decide)).1,
   ((C6_abort_atomicity sZero3 tYolo3 (by with_unfolding_all decide)).2.2.2
     (by with_unfolding_all decide) (by with_unfolding_all decide)
     (by with_unfolding_all decide)).2.1⟩

/-- C7 counterexample: two same-class boxes whose IoU is exactly the
threshold `0.45` — the IoU does not *exceed* the threshold, yet `_nms`
removes the lower-confidence box (the code keeps a candidate only when
its IoU is strictly below the threshold), refuting "removes every
remaining candidate whose IoU with the just-kept box exceeds the
threshold". -/
theorem C7_counterexample :
    iou dHi.bbox dLo45.bbox = 9/20 ∧
    ¬ ((9 : ℚ)/20 > 45/100) ∧
    nms [dHi, dLo45] (45/100) = [dHi] := by
  with_unfolding_all decide

/-- C7 (amended): per-class NMS sorts descending by confidence and
greedily keeps the highest-confidence remaining candidate, removing
every remaining candidate whose IoU with the just-kept box is **at
least** the threshold (candidates survive only with IoU strictly
below): the kept list is a sublist of the descending sort (so it is in
descending confidence order), kept boxes pairwise have IoU below the
threshold, and every candidate is either kept or eliminated by some
kept box of no smaller confidence whose IoU with it is at least the
threshold; in particular, for two same-class boxes with IoU 0.6 at
threshold 0.45, only the higher-confidence box is kept. -/
theorem C7_nms_greedy (dets : List Detection) (thr : ℚ) :
    (nms dets thr).Sublist (sortDescConf dets) ∧
    SortedDesc (nms dets thr) ∧
    (nms dets thr).Pairwise (fun a b => iou a.bbox b.bbox < thr) ∧
    (∀ d ∈ dets, d ∈ nms dets thr ∨
      ∃ k ∈ nms dets thr, d.confidence ≤ k.confidence ∧ thr ≤ iou k.bbox d.bbox) ∧
    iou dHi.bbox dLo.bbox = 3/5 ∧
    nms [dHi, dLo] (45/100) = [dHi] := by
  refine ⟨nmsLoop_sublist thr _,
    (sortDescConf_sorted dets).sublist (nmsLoop_sublist thr _),
    nmsLoop_pairwise_iou thr _, ?_,
    by with_unfolding_all decide, by with_unfolding_all decide⟩
  intro d hd
  exact nmsLoop_complete thr (sortDescConf dets) (sortDescConf_sorted dets) d
    (mem_sortDescConf.mpr hd)

/-- Witness for C7 at the IoU-0.6 example pair: the completeness clause
applied to the removed lower-confidence box names `dHi` as its
suppressor. -/
theorem C7_nms_greedy_witness :
    (nms [dHi, dLo] (45/100)).Sublist (sortDescConf [dHi, dLo]) ∧
    (dLo ∈ nms [dHi, dLo] (45/100) ∨
      ∃ k ∈ nms [dHi, dLo] (45/100),
        dLo.confidence ≤ k.confidence ∧ (45:ℚ)/100 ≤ iou k.bbox dLo.bbox) :=
  ⟨(C7_nms_greedy [dHi, dLo] (45/100)).1,
   (C7_nms_greedy [dHi, dLo] (45/100)).2.2.2.1 dLo
     (by with_unfolding_all decide)⟩

/-- C8 counterexample: for the degenerate zero-area box, `_iou` of the
box with itself is `0`, not `1.0`, refuting "for every box,
IoU(box, box) = 1.0". -/
theorem C8_counterexample :
    iou zeroBox zeroBox = 0 ∧ iou zeroBox zeroBox ≠ 1 := by
  with_unfolding_all decide

/-- C8 (amended): `IoU(box, box) = 1.0` for every box of positive area;
for every pair of disjoint boxes (no overlap in x or in y) the IoU is
`0`; whenever the union area is `0` the IoU is defined as `0`; and a
degenerate (zero-or-negative width or height) box has IoU `0` with
every box, so degenerate boxes never suppress any other candidate. -/
theorem C8_iou_properties (x1 y1 x2 y2 u1 v1 u2 v2 : ℚ) :
    (x1 < x2 → y1 < y2 → iou (x1, y1, x2, y2) (x1, y1, x2, y2) = 1) ∧
    ((min x2 u2 ≤ max x1 u1 ∨ min y2 v2 ≤ max y1 v1) →
      iou (x1, y1, x2, y2) (u1, v1, u2, v2) = 0) ∧
    (unionArea (x1, y1, x2, y2) (u1, v1, u2, v2) = 0 →
      iou (x1, y1, x2, y2) (u1, v1, u2, v2) = 0) ∧
    ((x2 ≤ x1 ∨ y2 ≤ y1) → iou (x1, y1, x2, y2) (u1, v1, u2, v2) = 0) :=
  ⟨fun hx hy => iou_self_of_pos_area hx hy,
   fun h => iou_disjoint h,
   fun h => iou_union_zero h,
   fun h => iou_degenerate_left _ h⟩

/-- Witness for C8 at concrete boxes: the unit box against itself has
IoU 1; two separated unit boxes have IoU 0; the degenerate box never
suppresses the unit box. -/
theorem C8_iou_properties_witness :
    iou (0, 0, 1, 1) (0, 0, 1, 1) = 1 ∧
    iou (0, 0, 1, 1) (2, 2, 3, 3) = 0 ∧
    iou (0, 0, 0, 0) (0, 0, 1, 1) = 0 :=
  ⟨(C8_iou_properties 0 0 1 1 0 0 1 1).1 (by norm_num) (by norm_num),
   (C8_iou_properties 0 0 1 1 2 2 3 3).2.1
     (Or.inl (by with_unfolding_all decide)),
   (C8_iou_properties 0 0 0 0 0 0 1 1).2.2.2 (Or.inl le_rfl)⟩

/-- C9 counterexample: on the tensor `exPreds` at threshold `1/4`, the
`calcium_oxalate` result stores confidence `333/1000` — the rounded
value — while the arithmetic mean of the kept confidences is `1/3`,
refuting "confidence = arithmetic mean of kept confidences". -/
theorem C9_counterexample :
    (postprocess_yolo exPreds (1/4)).lookup "calcium_oxalate"
      = some ⟨true, 2, 333/1000, [exDet0, exDet1]⟩ ∧
    ((nms (detectionsByClass exPreds (1/4) 0) (45/100)).map (·.confidence)).sum
        / ((nms (detectionsByClass exPreds (1/4) 0) (45/100)).length : ℚ)
      = 1/3 ∧
    (333 : ℚ)/1000 ≠ 1/3 := by
  refine ⟨?_, ?_, by norm_num⟩
  · rw [postprocess_yolo_eq, detectionsByClass_exPreds0]
    with_unfolding_all decide
  · rw [detectionsByClass_exPreds0]
    with_unfolding_all decide

/-- C9 (amended): for every raw tensor and threshold, the postprocessed
mapping contains exactly one ClassResult per each of the five known
classes (in training order); per class, `present` holds iff some
candidate survives, `count` is the size of the kept set, `confidence`
is the arithmetic mean of the kept confidences **rounded to 3 decimal
places** (`0.0` if none), and `detections` is the kept list — in
descending confidence order — truncated to 10; a class with no
candidate gets the absent/0/0.0/empty default. -/
theorem C9_postprocess_per_class (preds : ℕ → ℕ → ℚ) (thr : ℚ) :
    ((postprocess_yolo preds thr).map Prod.fst
      = ["calcium_oxalate", "squamous_cells", "triple_phosphate",
         "uric_acid", "yeast"]) ∧
    ∀ class_id, class_id < num_classes →
      (postprocess_yolo preds thr).lookup (CLASS_NAMES class_id)
          = some (summarizeClass (detectionsByClass preds thr class_id)) ∧
      ((summarizeClass (detectionsByClass preds thr class_id)).present
          = decide (detectionsByClass preds thr class_id ≠ [])) ∧
      ((summarizeClass (detectionsByClass preds thr class_id)).count
          = (nms (detectionsByClass preds thr class_id) (45/100)).length) ∧
      ((summarizeClass (detectionsByClass preds thr class_id)).confidence
          = (if detectionsByClass preds thr class_id = [] then 0 else
              pyRound3
                (((nms (detectionsByClass preds thr class_id) (45/100)).map
                    (·.confidence)).sum
                  / ((nms (detectionsByClass preds thr class_id) (45/100)).length
                      : ℚ)))) ∧
      ((summarizeClass (detectionsByClass preds thr class_id)).detections
          = (nms (detectionsByClass preds thr class_id) (45/100)).take 10) ∧
      SortedDesc (summarizeClass (detectionsByClass preds thr class_id)).detections ∧
      (detectionsByClass preds thr class_id = [] →
        summarizeClass (detectionsByClass preds thr class_id)
          = ⟨false, 0, 0, []⟩) := by
  refine ⟨by rw [postprocess_yolo_eq]; rfl, ?_⟩
  intro class_id hlt
  have hspec := summarizeClass_spec (detectionsByClass preds thr class_id)
  have hsorted10 : SortedDesc
      (summarizeClass (detectionsByClass preds thr class_id)).detections := by
    rw [hspec.2.2.2.1]
    exact hspec.2.2.2.2.1.sublist (List.take_sublist _ _)
  have hdefault : detectionsByClass preds thr class_id = [] →
      summarizeClass (detectionsByClass preds thr class_id) = ⟨false, 0, 0, []⟩ := by
    intro h
    rw [h]
    rfl
  refine ⟨?_, hspec.1, hspec.2.1, hspec.2.2.1, hspec.2.2.2.1, hsorted10, hdefault⟩
  unfold num_classes at hlt
  interval_cases class_id <;>
    simp [postprocess_yolo_eq, CLASS_NAMES, List.lookup]

/-- Witness for C9 at the example tensor `exPreds`, threshold `1/4`,
class 0. -/
theorem C9_postprocess_per_class_witness :
    ((postprocess_yolo exPreds (1/4)).map Prod.fst
      = ["calcium_oxalate", "squamous_cells", "triple_phosphate",
         "uric_acid", "yeast"]) ∧
    (postprocess_yolo exPreds (1/4)).lookup (CLASS_NAMES 0)
      = some (summarizeClass (detectionsByClass exPreds (1/4) 0)) :=
  ⟨(C9_postprocess_per_class exPreds (1/4)).1,
   ((C9_postprocess_per_class exPreds (1/4)).2 0 (by decide)).1⟩

/-- C10 (implicit): when an admitted update brings the pending count to
the threshold, `add_update` answers status `"aggregated"` with
`pending_count = 0` and `new_version` equal to the (post-call) current
version even when the internal aggregation returned `False`; in that
failure case the pending queue actually still holds every update
(including the new one) and the version is unchanged — the returned
status does not reflect whether aggregation succeeded. -/
theorem C10_status_ignores_failure (s : ManagerState) (u : ModelUpdate)
    (hon : s.is_online = true)
    (hlen : AGGREGATION_THRESHOLD ≤ s.pending_updates.length + 1) :
    (add_update s u).1.status = "aggregated" ∧
    (add_update s u).1.pending_count = some 0 ∧
    (add_update s u).1.new_version = some (add_update s u).2.2.current_version ∧
    ((add_update s u).2.1 = false →
      (add_update s u).2.2.pending_updates = s.pending_updates ++ [u] ∧
      (add_update s u).2.2.current_version = s.current_version ∧
      (add_update s u).2.2.pending_updates ≠ []) := by
  have hon' : is_connected s = true := by simp [is_connected, hon]
  simp only [add_update_threshold s u hon' hlen]
  refine ⟨trivial, trivial, trivial, ?_⟩
  intro hb
  rw [aggregate_updates_fail _ hb]
  exact ⟨rfl, rfl, by simp⟩

/-- Witness for C10: the third zero-sample update — the call reports
`"aggregated"`/`pending_count 0`, yet the aggregation failed, the queue
holds all three updates and the version is still 0. -/
theorem C10_status_ignores_failure_witness :
    (add_update sZero2 (zUpd "c")).1.status = "aggregated" ∧
    (add_update sZero2 (zUpd "c")).1.pending_count = some 0 ∧
    (add_update sZero2 (zUpd "c")).2.1 = false ∧
    (add_update sZero2 (zUpd "c")).2.2.pending_updates
      = sZero2.pending_updates ++ [zUpd "c"] ∧
    (add_update sZero2 (zUpd "c")).2.2.current_version = sZero2.current_version :=
  ⟨(C10_status_ignores_failure sZero2 (zUpd "c") rfl (by decide)).1,
   (C10_status_ignores_failure sZero2 (zUpd "c") rfl (by decide)).2.1,
   by with_unfolding_all decide,
   ((C10_status_ignores_failure sZero2 (zUpd "c") rfl (by decide)).2.2.2
     (by with_unfolding_all decide)).1,
   ((C10_status_ignores_failure sZero2 (zUpd "c") rfl (by decide)).2.2.2
     (by with_unfolding_all decide)).2.1⟩


end UroSmart
